import Mathlib

/-
Verification of the waveform-to-PSD feature pipeline shared by
PSD_Earthquake_processor.py and PSD_Background_processor.py from the
EarthquakeML data preparation tools.

The pipeline is embedded shallowly over lists of rationals.  Floating
point sample values produced by transcendental kernels (the Butterworth
tap values returned by scipy butter, the polyphase resampler output
samples, the averaged Welch periodogram powers) are not representable in
ℚ; they enter through a NumericModel oracle, and every theorem below
holds for an arbitrary oracle, because the properties under verification
concern lengths, counts, indices, gating and key assignment, none of
which depend on those sample values.  Error behaviour (scipy ValueError,
Python ZeroDivisionError) is modelled with Except, mirroring the per
event try/except of the scripts.
-/

namespace EqML

set_option maxRecDepth 4000

/-- Message of the scipy filtfilt ValueError raised when the input is not
longer than the default pad length 3 * max(len(a), len(b)). -/
def padlenMsg : String := "x must be longer than padlen"

/-- Message of the Python ZeroDivisionError for float division. -/
def zeroDivMsg : String := "float division by zero"

/-- Message of the scipy butter ValueError for a normalized critical
frequency outside the open unit interval. -/
def butterMsg : String := "digital filter critical frequencies must be between 0 and 1"

/-- Message of the scipy resample_poly ValueError for non positive
resampling factors. -/
def updownMsg : String := "up and down must be at least 1"

/-- Message of the scipy welch ValueError when the explicit window array
is longer than the input signal. -/
def windowLongMsg : String := "window is longer than input signal"

/-- Message of the scipy welch ValueError when noverlap reaches nperseg. -/
def noverlapMsg : String := "noverlap must be less than nperseg"

/-- Message of the scipy welch ValueError when nfft is below nperseg. -/
def nfftMsg : String := "nfft must be greater than or equal to nperseg"

/-- Message of the Python integer floor division by zero. -/
def intDivMsg : String := "integer division or modulo by zero"

/-- Python float truncation int(q).  Every call site in the two scripts
passes a nonnegative value, where truncation toward zero agrees with the
floor taken here. -/
def pyint (q : ℚ) : ℤ := Int.fdiv q.num (q.den : ℤ)

/-- Python float division, which raises ZeroDivisionError on a zero
denominator. -/
def pydiv (a b : ℚ) : Except String ℚ :=
  if b = 0 then Except.error zeroDivMsg else Except.ok (a / b)

/-- Python integer floor division, which raises on a zero divisor. -/
def pyfloordiv (a b : ℤ) : Except String ℤ :=
  if b = 0 then Except.error intDivMsg else Except.ok (Int.fdiv a b)

/-- Zero padding of a decimal numeral to width three, as the Python
format specifier 03d does for the nonnegative counters used here. -/
def pad3 (n : ℕ) : String :=
  String.mk (List.replicate (3 - (Nat.repr n).length) (Char.ofNat 48)) ++ Nat.repr n

/-- Base of the output keys of the result collection. -/
def eventKeyBase : String := "event_"

/-- Output key event_NNN built from the good event counter. -/
def eventKey (n : ℕ) : String := eventKeyBase ++ pad3 n

/-- Base of the window keys inside one event feature set. -/
def windowKeyBase : String := "window_"

/-- Window key window_NNN of the w-th segment, 1-based. -/
def winKey (n : ℕ) : String := windowKeyBase ++ pad3 n

/-- Exception propagating bind: the model of a Python exception flowing
from a callee out to the per event try block. -/
def exBind {α β : Type} (m : Except String α) (f : α → Except String β) : Except String β :=
  match m with
  | Except.error e => Except.error e
  | Except.ok a => f a

@[simp] theorem exBind_ok {α β : Type} (a : α) (f : α → Except String β) :
    exBind (Except.ok a) f = f a := rfl

@[simp] theorem exBind_error {α β : Type} (e : String) (f : α → Except String β) :
    exBind (Except.error e) f = Except.error e := rfl

/-- Effectful map over a list: the Python for loop stops at the first
raised exception, so either the whole list of results is produced or none
of it is. -/
def mapEx {α β : Type} (f : α → Except String β) : List α → Except String (List β)
  | [] => Except.ok []
  | a :: l => exBind (f a) (fun b => exBind (mapEx f l) (fun bs => Except.ok (b :: bs)))

theorem mapEx_eq_ok {α β : Type} (f : α → Except String β) (g : α → β) :
    ∀ l : List α, (∀ a ∈ l, f a = Except.ok (g a)) → mapEx f l = Except.ok (l.map g) := by
  intro l
  induction l with
  | nil => intro _; rfl
  | cons a l ih =>
    intro h
    have ha := h a (List.mem_cons_self a l)
    have hl := ih (fun b hb => h b (List.mem_cons_of_mem a hb))
    simp [mapEx, ha, hl]

/-- One step of the scipy lfilter direct form difference equation over ℚ:
the next output sample, from the input and the already produced outputs
(most recent first). -/
def lfilterNext (b a x : List ℚ) (yrev : List ℚ) : ℚ :=
  let n := yrev.length
  let bx := (List.range b.length).foldl
    (fun s i => s + b.getD i 0 * (if i ≤ n then x.getD (n - i) 0 else 0)) 0
  let ay := (List.range (a.length - 1)).foldl
    (fun s j => s + a.getD (j + 1) 0 * yrev.getD j 0) 0
  (bx - ay) / a.getD 0 0

/-- First n outputs of lfilter, most recent first. -/
def lfilterRev (b a x : List ℚ) : ℕ → List ℚ
  | 0 => []
  | n + 1 => lfilterNext b a x (lfilterRev b a x n) :: lfilterRev b a x n

/-- scipy.signal.lfilter with zero initial state. -/
def lfilter (b a x : List ℚ) : List ℚ := (lfilterRev b a x x.length).reverse

@[simp] theorem lfilterRev_length (b a x : List ℚ) :
    ∀ n, (lfilterRev b a x n).length = n := by
  intro n
  induction n with
  | zero => rfl
  | succ n ih => simp [lfilterRev, ih]

@[simp] theorem lfilter_length (b a x : List ℚ) : (lfilter b a x).length = x.length := by
  simp [lfilter]

/-- Odd extension by n reflected samples on each side, as scipy odd_ext
does for the default filtfilt padding. -/
def oddExt (x : List ℚ) (n : ℕ) : List ℚ :=
  ((List.range n).map (fun i => 2 * x.getD 0 0 - x.getD (n - i) 0)) ++ x ++
    ((List.range n).map (fun i => 2 * x.getD (x.length - 1) 0 - x.getD (x.length - 2 - i) 0))

@[simp] theorem oddExt_length (x : List ℚ) (n : ℕ) :
    (oddExt x n).length = x.length + 2 * n := by
  simp only [oddExt, List.length_append, List.length_map, List.length_range]
  omega

/-- Value of the zero phase forward backward filter on the odd extended
signal, trimmed back to the original support.  scipy additionally derives
initial filter conditions (lfilter_zi) to shrink startup transients; that
choice alters sample values only, never the output length or the error
behaviour, which are all this development relies on. -/
def filtfiltVal (b a x : List ℚ) : List ℚ :=
  let edge := 3 * max a.length b.length
  let y1 := lfilter b a (oddExt x edge)
  let y2 := (lfilter b a y1.reverse).reverse
  (y2.drop edge).take x.length

/-- scipy.signal.filtfilt with default padding: raises ValueError unless
the input is strictly longer than padlen = 3 * max(len(a), len(b)). -/
def filtfilt (b a x : List ℚ) : Except String (List ℚ) :=
  if x.length ≤ 3 * max a.length b.length then Except.error padlenMsg
  else Except.ok (filtfiltVal b a x)

@[simp] theorem filtfiltVal_length (b a x : List ℚ) :
    (filtfiltVal b a x).length = x.length := by
  simp only [filtfiltVal, List.length_take, List.length_drop, List.length_reverse,
    lfilter_length, oddExt_length]
  omega

theorem filtfilt_ok (b a x : List ℚ) (h : 3 * max a.length b.length < x.length) :
    filtfilt b a x = Except.ok (filtfiltVal b a x) := by
  simp only [filtfilt, if_neg (Nat.not_le.mpr h)]

/-- Pole of the DC blocking filter (the source default a = 0.999, used at
every call site). -/
def dcPole : ℚ := 999 / 1000

/-- The dc_block function of both scripts: zero phase filtering with
b = [1, -1] and a = [1, -dcPole]. -/
def dc_block (x : List ℚ) : Except String (List ℚ) :=
  filtfilt [1, -1] [1, -dcPole] x

theorem dc_block_ok (x : List ℚ) (h : 6 < x.length) :
    dc_block x = Except.ok (filtfiltVal [1, -1] [1, -dcPole] x) := by
  have hlen : 3 * max (List.length ([1, -dcPole] : List ℚ)) (List.length ([1, -1] : List ℚ)) < x.length := by
    simp only [List.length_cons, List.length_nil]
    omega
  exact filtfilt_ok _ _ _ hlen

/-- Oracles for the floating point kernels whose sample values are
transcendental and therefore outside ℚ: the high pass and low pass
Butterworth tap values returned by scipy butter for a valid normalized
cutoff, the polyphase resampler output samples, and the averaged Welch
periodogram powers.  Every theorem below holds for an arbitrary oracle,
because no verified property depends on those values. -/
structure NumericModel where
  butterHighB : ℚ → ℕ → ℚ
  butterHighA : ℚ → ℕ → ℚ
  butterLowB : ℚ → ℕ → ℚ
  butterLowA : ℚ → ℕ → ℚ
  resampleVal : List ℚ → ℤ → ℤ → ℕ → ℚ
  welchPower : List ℚ → ℚ → ℕ → ℚ

/-- Concrete oracle used to evaluate the development on closed inputs. -/
def M0 : NumericModel :=
  ⟨fun _ i => if i = 0 then 1 else 0,
   fun _ i => if i = 0 then 1 else 0,
   fun _ i => if i = 0 then 1 else 0,
   fun _ i => if i = 0 then 1 else 0,
   fun _ _ _ _ => 0,
   fun _ _ _ => 0⟩

/-- scipy.signal.butter of order N: validates the normalized critical
frequency and returns N + 1 numerator and N + 1 denominator taps, their
values drawn from the oracle functions. -/
def butter (bO aO : ℚ → ℕ → ℚ) (N : ℕ) (Wn : ℚ) : Except String (List ℚ × List ℚ) :=
  if 0 < Wn ∧ Wn < 1 then
    Except.ok ((List.range (N + 1)).map (bO Wn), (List.range (N + 1)).map (aO Wn))
  else Except.error butterMsg

/-- The preprocess function of both scripts: DC block, then a zero phase
4th order Butterworth high pass with cutoff 0.1 Hz normalized to fs / 2. -/
def preprocess (M : NumericModel) (x : List ℚ) (fs : ℚ) : Except String (List ℚ) :=
  exBind (dc_block x) (fun x1 =>
    exBind (pydiv (1 / 10) (fs / 2)) (fun Wn =>
      exBind (butter M.butterHighB M.butterHighA 4 Wn) (fun ba =>
        filtfilt ba.1 ba.2 x1)))

/-- Smallest power of two at least n, fuel driven so that it reduces in
the kernel; the model of int(2 ** ceil(log2 n)). -/
def np2Aux : ℕ → ℕ → ℕ → ℕ
  | 0, _, acc => acc
  | f + 1, n, acc => if n ≤ acc then acc else np2Aux f n (2 * acc)

/-- Next power of two. -/
def np2 (n : ℕ) : ℕ := np2Aux n n 1

/-- One sided frequency grid of rfftfreq: k * fs / nfft for
k = 0 .. nfft / 2. -/
def welchFreqs (fs : ℚ) (nfft : ℕ) : List ℚ :=
  (List.range (nfft / 2 + 1)).map (fun (k : ℕ) => (k : ℚ) * fs / (nfft : ℚ))

/-- Boolean mask selection, as a numpy boolean index does. -/
def maskSelect : List Bool → List ℚ → List ℚ
  | [], _ => []
  | _ :: _, [] => []
  | true :: ks, v :: vs => v :: maskSelect ks vs
  | false :: ks, _ :: vs => maskSelect ks vs

/-- Successful value of welch_psd: the one sided PSD and the frequency
grid, both restricted by the identical boolean mask f ≤ 10. -/
def welchOkVal (M : NumericModel) (x : List ℚ) (fs : ℚ) : List ℚ × List ℚ :=
  let nperseg := pyint (fs * 5)
  let nfft := np2 nperseg.toNat
  let f := welchFreqs fs nfft
  let pxx := (List.range (nfft / 2 + 1)).map (M.welchPower x fs)
  let keep := f.map (fun q => decide (q ≤ 10))
  (maskSelect keep pxx, maskSelect keep f)

/-- The welch_psd function of both scripts: Welch PSD with a 5 second
Hann window, 75 percent sub window overlap and next power of two FFT
length, keeping exactly the bins with frequency at most 10 Hz.  The
scipy checks that can raise for a degenerate segment are modelled; the
averaged powers come from the oracle. -/
def welch_psd (M : NumericModel) (x : List ℚ) (fs : ℚ) : Except String (List ℚ × List ℚ) :=
  let nperseg := pyint (fs * 5)
  let noverlap := pyint ((nperseg : ℚ) * (3 / 4))
  let nfft := np2 nperseg.toNat
  if (x.length : ℤ) < nperseg then Except.error windowLongMsg
  else if nperseg ≤ noverlap then Except.error noverlapMsg
  else if (nfft : ℤ) < nperseg then Except.error nfftMsg
  else Except.ok (welchOkVal M x fs)

/-- scipy.signal.resample_poly: validates the integer factors, reduces
them by their gcd, returns the input unchanged when the reduced ratio is
one, and otherwise emits ceil(len x * up / down) samples whose values
come from the oracle. -/
def resample_poly (M : NumericModel) (x : List ℚ) (up down : ℤ) : Except String (List ℚ) :=
  if up < 1 ∨ down < 1 then Except.error updownMsg
  else
    let g := Nat.gcd up.toNat down.toNat
    let u := up.toNat / g
    let d := down.toNat / g
    if u = 1 ∧ d = 1 then Except.ok x
    else
      Except.ok ((List.range
        (x.length * u / d + if x.length * u % d ≠ 0 then 1 else 0)).map
        (M.resampleVal x up down))

/-- The safe_resample function of both scripts: DC block, zero phase 4th
order Butterworth anti alias low pass at fc = 0.9 * min(fs_in, fs_out) / 2
normalized to fs_in / 2, then polyphase resampling from fs_in to fs_out. -/
def safe_resample (M : NumericModel) (x : List ℚ) (fsIn fsOut : ℤ) : Except String (List ℚ) :=
  exBind (dc_block x) (fun x1 =>
    exBind (pydiv ((9 / 10) * ((min fsIn fsOut : ℤ) : ℚ) / 2) ((fsIn : ℚ) / 2)) (fun Wn =>
      exBind (butter M.butterLowB M.butterLowA 4 Wn) (fun ba =>
        exBind (filtfilt ba.1 ba.2 x1) (fun x2 =>
          resample_poly M x2 fsOut fsIn))))

/-- Event feature set: the optional metadata record (present on the
earthquake path, absent on the background path) plus the insertion
ordered window map from window key to the pair (power, frequency). -/
structure EventPSD where
  metadata : Option String
  windows : List (String × (List ℚ × List ℚ))
deriving DecidableEq

/-- Outcome of one event inside the try block, before the per event
exception handler: the two skip diagnostics and acceptance. -/
inductive EventOutcome where
  | notEnoughSamples : ℕ → EventOutcome
  | tooFewWindows : ℤ → EventOutcome
  | accepted : EventPSD → EventOutcome
deriving DecidableEq

/-- One input event: the selected sensor channel column as a waveform,
plus its metadata record. -/
structure EventStruct where
  waveform : List ℚ
  metadata : String
deriving DecidableEq

/-- Mutable state of the batch loop: the accumulating result collection
(an insertion ordered map) and the good event counter, initially 1. -/
structure BatchState where
  psdResults : List (String × EventPSD)
  goodEventCounter : ℕ
deriving DecidableEq

/-- Original sampling frequency in Hz, a source constant. -/
def fs_in : ℤ := 20

/-- Target sampling frequency in Hz, a source constant. -/
def fs_out : ℤ := 100

/-- Window length in seconds, a source constant. -/
def delta_t : ℚ := 10

/-- Overlap fraction of consecutive windows, a source constant. -/
def overlap : ℚ := 1 / 2

/-- The windowing, gating and spectral estimation block of both scripts:
window size and stride, the insufficient samples check, the conditioning,
the window count with its gate at 11, and the per segment Welch loop.
withMeta distinguishes the earthquake variant, which stores the metadata
record inside the event feature set. -/
def windowAndEstimate (M : NumericModel) (withMeta : Bool) (fsOut : ℤ)
    (metadata : String) (waveform : List ℚ) : Except String EventOutcome :=
  let window_size := pyint ((fsOut : ℚ) * delta_t)
  let stride := pyint ((window_size : ℚ) * (1 - overlap))
  if (waveform.length : ℤ) < window_size then
    Except.ok (EventOutcome.notEnoughSamples waveform.length)
  else
    exBind (preprocess M waveform (fsOut : ℚ)) (fun wf2 =>
      exBind (pyfloordiv ((wf2.length : ℤ) - window_size) stride) (fun q =>
        if q + 1 < 11 then Except.ok (EventOutcome.tooFewWindows (q + 1))
        else
          exBind (mapEx (fun w =>
              exBind (welch_psd M ((wf2.drop (w * stride.toNat)).take window_size.toNat)
                  (fsOut : ℚ))
                (fun pf => Except.ok (winKey (w + 1), pf)))
            (List.range (q + 1).toNat))
            (fun windows =>
              Except.ok (EventOutcome.accepted
                ⟨if withMeta then some metadata else none, windows⟩))))

/-- Whole body of the per event try block: resample, then window, gate
and estimate. -/
def processEvent (M : NumericModel) (withMeta : Bool) (fsIn fsOut : ℤ)
    (ev : EventStruct) : Except String EventOutcome :=
  exBind (safe_resample M ev.waveform fsIn fsOut) (fun wf1 =>
    windowAndEstimate M withMeta fsOut ev.metadata wf1)

/-- One iteration of the batch loop: a raised exception (caught by the
per event handler) or a skip leaves the result collection and the counter
untouched; an accepted event is appended under the key formed from the
current counter value, which then increments. -/
def processEventIntoState (M : NumericModel) (withMeta : Bool) (fsIn fsOut : ℤ)
    (st : BatchState) (ev : EventStruct) : BatchState :=
  match processEvent M withMeta fsIn fsOut ev with
  | Except.ok (EventOutcome.accepted psd) =>
      ⟨st.psdResults ++ [(eventKey st.goodEventCounter, psd)], st.goodEventCounter + 1⟩
  | _ => st

/-- The batch loop over all events in input order, starting from the
empty result collection and counter 1. -/
def processBatch (M : NumericModel) (withMeta : Bool) (fsIn fsOut : ℤ)
    (events : List EventStruct) : BatchState :=
  events.foldl (processEventIntoState M withMeta fsIn fsOut) ⟨[], 1⟩

/-- Number of windows an outcome reports: the computed num_windows for a
window gate rejection, the emitted window count for an accepted event,
zero for an insufficient samples rejection. -/
def outcomeNumWindows : EventOutcome → ℤ
  | EventOutcome.notEnoughSamples _ => 0
  | EventOutcome.tooFewWindows k => k
  | EventOutcome.accepted p => (p.windows.length : ℤ)

/-- Feature set of an accepted outcome, none otherwise. -/
def acceptedOf : Except String EventOutcome → Option EventPSD
  | Except.ok (EventOutcome.accepted p) => some p
  | _ => none

/-- Checks that a fallible waveform computation succeeded with a result
of the stated length. -/
def isOkLen (r : Except String (List ℚ)) (n : ℕ) : Bool :=
  match r with
  | Except.ok y => decide (y.length = n)
  | Except.error _ => false

theorem ceilDiv_eq (a b : ℕ) (hb : 0 < b) :
    a / b + (if a % b ≠ 0 then 1 else 0) = (a + b - 1) / b := by
  have hdm := Nat.div_add_mod a b
  by_cases hr : a % b = 0
  · have h1 : a + b - 1 = b * (a / b) + (b - 1) := by
      generalize b * (a / b) = t at hdm ⊢
      omega
    rw [h1, Nat.mul_add_div hb, Nat.div_eq_of_lt (show b - 1 < b by omega)]
    simp [hr]
  · have hlt := Nat.mod_lt a hb
    have h1 : a + b - 1 = b * (a / b + 1) + (a % b - 1) := by
      rw [Nat.mul_add, Nat.mul_one]
      generalize b * (a / b) = t at hdm ⊢
      omega
    rw [h1, Nat.mul_add_div hb, Nat.div_eq_of_lt (show a % b - 1 < b by omega)]
    simp [hr]

theorem ceil_reduce (n u d g : ℕ) (hg : 0 < g) (hd : 0 < d) :
    n * u / d + (if n * u % d ≠ 0 then 1 else 0)
      = (n * (g * u) + g * d - 1) / (g * d) := by
  have h1 : n * (g * u) = g * (n * u) := by ring
  rw [h1, ← ceilDiv_eq (g * (n * u)) (g * d) (by positivity),
    Nat.mul_div_mul_left _ _ hg, Nat.mul_mod_mul_left]
  have hgne : g ≠ 0 := by omega
  by_cases hm : n * u % d = 0 <;> simp [hm, hgne]

theorem resample_poly_len (M : NumericModel) (x : List ℚ) (up down : ℤ)
    (h1 : 1 ≤ up) (h2 : 1 ≤ down) :
    ∃ y, resample_poly M x up down = Except.ok y ∧
      y.length = (x.length * up.toNat + down.toNat - 1) / down.toNat := by
  have hu : 0 < up.toNat := by omega
  have hd : 0 < down.toNat := by omega
  have hcond : ¬ (up < 1 ∨ down < 1) := by omega
  have hg : 0 < Nat.gcd up.toNat down.toNat := Nat.gcd_pos_of_pos_left _ hu
  have hgu := Nat.mul_div_cancel' (Nat.gcd_dvd_left up.toNat down.toNat)
  have hgd := Nat.mul_div_cancel' (Nat.gcd_dvd_right up.toNat down.toNat)
  have hdq : 0 < down.toNat / Nat.gcd up.toNat down.toNat := by
    rcases Nat.eq_zero_or_pos (down.toNat / Nat.gcd up.toNat down.toNat) with h0 | h0
    · rw [h0, Nat.mul_zero] at hgd; omega
    · exact h0
  simp only [resample_poly, if_neg hcond]
  by_cases hone : up.toNat / Nat.gcd up.toNat down.toNat = 1 ∧
      down.toNat / Nat.gcd up.toNat down.toNat = 1
  · rw [if_pos hone]
    refine ⟨x, rfl, ?_⟩
    obtain ⟨ha, hb⟩ := hone
    rw [ha, Nat.mul_one] at hgu
    rw [hb, Nat.mul_one] at hgd
    have hc : up.toNat = down.toNat := by omega
    rw [hc]
    have hstep : (x.length * down.toNat + down.toNat - 1) / down.toNat
        = (down.toNat * x.length + (down.toNat - 1)) / down.toNat := by
      congr 1
      rw [mul_comm]
      generalize down.toNat * x.length = t
      omega
    rw [hstep, Nat.mul_add_div hd,
      Nat.div_eq_of_lt (show down.toNat - 1 < down.toNat by omega)]
    omega
  · rw [if_neg hone]
    refine ⟨_, rfl, ?_⟩
    simp only [List.length_map, List.length_range]
    exact (ceil_reduce x.length _ _ _ hg hdq).trans (by rw [hgu, hgd])

theorem preprocess_len (M : NumericModel) (x : List ℚ) (fs : ℚ)
    (hx : 15 < x.length) (hfs : 1 / 5 < fs) :
    ∃ y, preprocess M x fs = Except.ok y ∧ y.length = x.length := by
  have hdc := dc_block_ok x (by omega)
  have hfs0 : (0 : ℚ) < fs := by linarith
  have hden : ((fs : ℚ) / 2) ≠ 0 := by positivity
  set Wn := (1 / 10 : ℚ) / (fs / 2) with hWdef
  have hdiv : pydiv (1 / 10) (fs / 2) = Except.ok Wn := by
    unfold pydiv
    rw [if_neg hden]
  have hWpos : 0 < Wn := by
    apply div_pos (by norm_num) (by linarith)
  have hWlt : Wn < 1 := by
    rw [hWdef, div_lt_one (by linarith)]
    linarith
  have hbutter : butter M.butterHighB M.butterHighA 4 Wn = Except.ok
      ((List.range 5).map (M.butterHighB Wn), (List.range 5).map (M.butterHighA Wn)) := by
    unfold butter
    rw [if_pos ⟨hWpos, hWlt⟩]
  set x1 := filtfiltVal [1, -1] [1, -dcPole] x with hx1def
  have hx1len : x1.length = x.length := filtfiltVal_length _ _ _
  have hff : filtfilt ((List.range 5).map (M.butterHighB Wn))
      ((List.range 5).map (M.butterHighA Wn)) x1
      = Except.ok (filtfiltVal ((List.range 5).map (M.butterHighB Wn))
          ((List.range 5).map (M.butterHighA Wn)) x1) := by
    apply filtfilt_ok
    simp only [List.length_map, List.length_range]
    omega
  refine ⟨filtfiltVal ((List.range 5).map (M.butterHighB Wn))
      ((List.range 5).map (M.butterHighA Wn)) x1, ?_, ?_⟩
  · unfold preprocess
    rw [hdc]
    simp only [exBind_ok]
    rw [hdiv]
    simp only [exBind_ok]
    rw [hbutter]
    simp only [exBind_ok]
    exact hff
  · rw [filtfiltVal_length, hx1len]

theorem safe_resample_len (M : NumericModel) (x : List ℚ) (fsIn fsOut : ℤ)
    (hx : 15 < x.length) (h1 : 1 ≤ fsIn) (h2 : 1 ≤ fsOut) :
    ∃ y, safe_resample M x fsIn fsOut = Except.ok y ∧
      y.length = (x.length * fsOut.toNat + fsIn.toNat - 1) / fsIn.toNat := by
  have hdc := dc_block_ok x (by omega)
  have hfsQ : (1 : ℚ) ≤ (fsIn : ℚ) := by exact_mod_cast h1
  have hden : ((fsIn : ℚ) / 2) ≠ 0 := by
    have : (0 : ℚ) < (fsIn : ℚ) := by linarith
    positivity
  have hmin1 : (1 : ℤ) ≤ min fsIn fsOut := le_min h1 h2
  have hminle : min fsIn fsOut ≤ fsIn := min_le_left _ _
  have hmQ1 : (1 : ℚ) ≤ ((min fsIn fsOut : ℤ) : ℚ) := by exact_mod_cast hmin1
  have hmQle : ((min fsIn fsOut : ℤ) : ℚ) ≤ (fsIn : ℚ) := by exact_mod_cast hminle
  set Wn := ((9 / 10 : ℚ) * ((min fsIn fsOut : ℤ) : ℚ) / 2) / ((fsIn : ℚ) / 2) with hWdef
  have hdiv : pydiv ((9 / 10) * ((min fsIn fsOut : ℤ) : ℚ) / 2) ((fsIn : ℚ) / 2)
      = Except.ok Wn := by
    unfold pydiv
    rw [if_neg hden]
  have hWpos : 0 < Wn := by
    apply div_pos (by nlinarith) (by linarith)
  have hWlt : Wn < 1 := by
    rw [hWdef, div_lt_one (by linarith)]
    nlinarith
  have hbutter : butter M.butterLowB M.butterLowA 4 Wn = Except.ok
      ((List.range 5).map (M.butterLowB Wn), (List.range 5).map (M.butterLowA Wn)) := by
    unfold butter
    rw [if_pos ⟨hWpos, hWlt⟩]
  set x1 := filtfiltVal [1, -1] [1, -dcPole] x with hx1def
  have hx1len : x1.length = x.length := filtfiltVal_length _ _ _
  set x2 := filtfiltVal ((List.range 5).map (M.butterLowB Wn))
    ((List.range 5).map (M.butterLowA Wn)) x1 with hx2def
  have hx2len : x2.length = x.length := by
    rw [hx2def, filtfiltVal_length, hx1len]
  have hff : filtfilt ((List.range 5).map (M.butterLowB Wn))
      ((List.range 5).map (M.butterLowA Wn)) x1 = Except.ok x2 := by
    apply filtfilt_ok
    simp only [List.length_map, List.length_range]
    omega
  obtain ⟨y, hy, hylen⟩ := resample_poly_len M x2 fsOut fsIn h2 h1
  refine ⟨y, ?_, by rw [hylen, hx2len]⟩
  unfold safe_resample
  rw [hdc]
  simp only [exBind_ok]
  rw [hdiv]
  simp only [exBind_ok]
  rw [hbutter]
  simp only [exBind_ok]
  rw [hff]
  simp only [exBind_ok]
  exact hy

theorem maskSelect_length_eq :
    ∀ (ks : List Bool) (l1 l2 : List ℚ), l1.length = l2.length →
      (maskSelect ks l1).length = (maskSelect ks l2).length := by
  intro ks
  induction ks with
  | nil =>
    intro l1 l2 _
    cases l1 <;> cases l2 <;> simp [maskSelect]
  | cons k ks ih =>
    intro l1 l2 h
    cases l1 with
    | nil =>
      cases l2 with
      | nil => rfl
      | cons b bs => simp at h
    | cons a as =>
      cases l2 with
      | nil => simp at h
      | cons b bs =>
        simp only [List.length_cons, Nat.add_right_cancel_iff] at h
        cases k <;> simp [maskSelect, ih as bs h]

theorem mem_maskSelect_pred (p : ℚ → Prop) [DecidablePred p] :
    ∀ (l : List ℚ) (q : ℚ), q ∈ maskSelect (l.map (fun v => decide (p v))) l → p q := by
  intro l
  induction l with
  | nil =>
    intro q h
    simp [maskSelect] at h
  | cons a as ih =>
    intro q h
    rw [List.map_cons] at h
    cases hd : decide (p a) with
    | false =>
      rw [hd] at h
      simp only [maskSelect] at h
      exact ih q h
    | true =>
      rw [hd] at h
      simp only [maskSelect, List.mem_cons] at h
      rcases h with h | h
      · rw [h]
        exact of_decide_eq_true hd
      · exact ih q h

theorem pyint_intCast (n : ℤ) : pyint ((n : ℚ)) = n := by
  unfold pyint
  rw [Rat.num_intCast, Rat.den_intCast]
  exact Int.fdiv_one n

theorem welch_psd_ok (M : NumericModel) (x : List ℚ) (h : 500 ≤ x.length) :
    welch_psd M x 100 = Except.ok (welchOkVal M x 100) := by
  have h1 : pyint ((100 : ℚ) * 5) = 500 := by
    rw [show (100 : ℚ) * 5 = ((500 : ℤ) : ℚ) by norm_num, pyint_intCast]
  have h2 : pyint (((500 : ℤ) : ℚ) * (3 / 4)) = 375 := by
    rw [show ((500 : ℤ) : ℚ) * (3 / 4) = ((375 : ℤ) : ℚ) by norm_num, pyint_intCast]
  have h3 : np2 (500 : ℤ).toNat = 512 := by decide
  simp only [welch_psd, h1, h2, h3]
  rw [if_neg (by exact_mod_cast Nat.not_lt.mpr h), if_neg (by decide), if_neg (by decide)]

theorem welchOkVal_spec (M : NumericModel) (x : List ℚ) (fs : ℚ) :
    (welchOkVal M x fs).1.length = (welchOkVal M x fs).2.length ∧
      ∀ q ∈ (welchOkVal M x fs).2, q ≤ 10 := by
  constructor
  · simp only [welchOkVal]
    apply maskSelect_length_eq
    simp only [welchFreqs, List.length_map, List.length_range]
  · intro q hq
    simp only [welchOkVal, welchFreqs] at hq
    exact mem_maskSelect_pred (fun v => v ≤ 10) _ q hq

theorem fdiv_coe (m n : ℕ) : Int.fdiv (m : ℤ) (n : ℤ) = ((m / n : ℕ) : ℤ) := by
  cases m with
  | zero =>
    rw [Nat.zero_div]
    rfl
  | succ k => rfl

theorem seg_length (wf2 : List ℚ) (L w : ℕ) (hL : wf2.length = L) (h : 1000 ≤ L)
    (hw : w < (L - 1000) / 500 + 1) :
    ((wf2.drop (w * 500)).take 1000).length = 1000 := by
  have hb := Nat.div_mul_le_self (L - 1000) 500
  have hwq : w ≤ (L - 1000) / 500 := by omega
  have hws : w * 500 ≤ L - 1000 :=
    le_trans (Nat.mul_le_mul_right _ hwq) hb
  rw [List.length_take, List.length_drop, hL]
  omega

theorem getD_map_range {α : Type} (f : ℕ → α) (n w : ℕ) (d : α) (h : w < n) :
    ((List.range n).map f).getD w d = f w := by
  rw [List.getD_eq_getElem?_getD, List.getElem?_map, List.getElem?_range h]
  rfl

theorem windowAndEstimate_short (M : NumericModel) (wm : Bool) (m : String)
    (wf : List ℚ) (h : wf.length < 1000) :
    windowAndEstimate M wm 100 m wf
      = Except.ok (EventOutcome.notEnoughSamples wf.length) := by
  have hws : pyint ((100 : ℚ) * delta_t) = 1000 := by
    rw [show (100 : ℚ) * delta_t = ((1000 : ℤ) : ℚ) by norm_num [delta_t], pyint_intCast]
  simp only [windowAndEstimate, Int.cast_ofNat, hws]
  rw [if_pos (by exact_mod_cast h)]

theorem windowAndEstimate_spec (M : NumericModel) (wm : Bool) (m : String)
    (wf : List ℚ) (h : 1000 ≤ wf.length) :
    ∃ wf2 : List ℚ, preprocess M wf 100 = Except.ok wf2 ∧
      wf2.length = wf.length ∧
      windowAndEstimate M wm 100 m wf =
        (if (wf.length - 1000) / 500 + 1 < 11 then
          Except.ok (EventOutcome.tooFewWindows (((wf.length - 1000) / 500 + 1 : ℕ) : ℤ))
        else
          Except.ok (EventOutcome.accepted
            ⟨if wm then some m else none,
             (List.range ((wf.length - 1000) / 500 + 1)).map
               (fun w => (winKey (w + 1),
                 welchOkVal M ((wf2.drop (w * 500)).take 1000) 100))⟩)) := by
  obtain ⟨wf2, hpre, hlen⟩ := preprocess_len M wf 100 (by omega) (by norm_num)
  refine ⟨wf2, hpre, hlen, ?_⟩
  have hws : pyint ((100 : ℚ) * delta_t) = 1000 := by
    rw [show (100 : ℚ) * delta_t = ((1000 : ℤ) : ℚ) by norm_num [delta_t], pyint_intCast]
  have hstr : pyint ((1000 : ℚ) * (1 - overlap)) = 500 := by
    rw [show (1000 : ℚ) * (1 - overlap) = ((500 : ℤ) : ℚ) by norm_num [overlap], pyint_intCast]
  simp only [windowAndEstimate, Int.cast_ofNat, hws, hstr]
  simp only [show (1000 : ℤ).toNat = 1000 from rfl, show (500 : ℤ).toNat = 500 from rfl]
  rw [if_neg (show ¬ ((wf.length : ℤ) < 1000) by omega)]
  rw [hpre]
  simp only [exBind_ok]
  have hsub : (wf2.length : ℤ) - 1000 = ((wf.length - 1000 : ℕ) : ℤ) := by
    rw [hlen]; omega
  have hfd : pyfloordiv ((wf2.length : ℤ) - 1000) 500
      = Except.ok (((wf.length - 1000) / 500 : ℕ) : ℤ) := by
    unfold pyfloordiv
    rw [if_neg (by norm_num), hsub]
    rw [show (500 : ℤ) = ((500 : ℕ) : ℤ) by norm_num]
    rw [fdiv_coe]
  rw [hfd]
  simp only [exBind_ok]
  by_cases hg : (wf.length - 1000) / 500 + 1 < 11
  · rw [if_pos (show ((((wf.length - 1000) / 500 : ℕ) : ℤ) + 1 < 11) by push_cast; omega),
      if_pos hg]
    push_cast
    rfl
  · rw [if_neg (show ¬ ((((wf.length - 1000) / 500 : ℕ) : ℤ) + 1 < 11) by push_cast; omega),
      if_neg hg]
    have htn : ((((wf.length - 1000) / 500 : ℕ) : ℤ) + 1).toNat
        = (wf.length - 1000) / 500 + 1 := by omega
    rw [htn]
    rw [mapEx_eq_ok
      (fun w => exBind (welch_psd M ((wf2.drop (w * 500)).take 1000) 100)
        (fun pf => Except.ok (winKey (w + 1), pf)))
      (fun w => (winKey (w + 1), welchOkVal M ((wf2.drop (w * 500)).take 1000) 100))
      (List.range ((wf.length - 1000) / 500 + 1))
      ?_]
    · simp only [exBind_ok]
    · intro w hw
      rw [List.mem_range] at hw
      have hseg : ((wf2.drop (w * 500)).take 1000).length = 1000 :=
        seg_length wf2 wf.length w hlen h hw
      dsimp only
      rw [welch_psd_ok M ((wf2.drop (w * 500)).take 1000) (by omega)]
      rfl

theorem step_of_acceptedOf (M : NumericModel) (wm : Bool) (fsIn fsOut : ℤ)
    (st : BatchState) (ev : EventStruct) :
    processEventIntoState M wm fsIn fsOut st ev =
      match acceptedOf (processEvent M wm fsIn fsOut ev) with
      | some psd =>
          ⟨st.psdResults ++ [(eventKey st.goodEventCounter, psd)], st.goodEventCounter + 1⟩
      | none => st := by
  unfold processEventIntoState acceptedOf
  cases hp : processEvent M wm fsIn fsOut ev with
  | error e => rfl
  | ok o => cases o <;> rfl

theorem step_error (M : NumericModel) (wm : Bool) (fsIn fsOut : ℤ)
    (st : BatchState) (ev : EventStruct) (e : String)
    (h : processEvent M wm fsIn fsOut ev = Except.error e) :
    processEventIntoState M wm fsIn fsOut st ev = st := by
  unfold processEventIntoState
  rw [h]

theorem keys_range_succ (c n : ℕ) :
    (List.range (n + 1)).map (fun i => eventKey (c + i))
      = eventKey c :: (List.range n).map (fun i => eventKey (c + 1 + i)) := by
  rw [List.range_succ_eq_map, List.map_cons, List.map_map]
  congr 1
  apply List.map_congr_left
  intro a _
  simp only [Function.comp]
  congr 1
  omega

theorem foldl_spec (M : NumericModel) (wm : Bool) (fsIn fsOut : ℤ) :
    ∀ (evs : List EventStruct) (res : List (String × EventPSD)) (c : ℕ),
      List.foldl (processEventIntoState M wm fsIn fsOut) ⟨res, c⟩ evs =
        ⟨res ++ List.zip
            ((List.range
              (evs.filterMap (fun ev => acceptedOf (processEvent M wm fsIn fsOut ev))).length).map
              (fun i => eventKey (c + i)))
            (evs.filterMap (fun ev => acceptedOf (processEvent M wm fsIn fsOut ev))),
          c + (evs.filterMap (fun ev => acceptedOf (processEvent M wm fsIn fsOut ev))).length⟩ := by
  intro evs
  induction evs with
  | nil =>
    intro res c
    simp
  | cons ev evs ih =>
    intro res c
    rw [List.foldl_cons, step_of_acceptedOf]
    cases hacc : acceptedOf (processEvent M wm fsIn fsOut ev) with
    | none =>
      rw [ih res c]
      rw [List.filterMap_cons_none (by exact hacc)]
    | some psd =>
      rw [ih (res ++ [(eventKey c, psd)]) (c + 1)]
      rw [List.filterMap_cons_some (by exact hacc)]
      have hk := keys_range_succ c
        (evs.filterMap (fun ev => acceptedOf (processEvent M wm fsIn fsOut ev))).length
      rw [List.length_cons, hk, List.zip_cons_cons]
      rw [List.append_cons]
      congr 1
      · simp
      · omega

theorem processEvent_error_of_bad_rates (M : NumericModel) (wm : Bool)
    (fsIn fsOut : ℤ) (ev : EventStruct) (h : fsIn ≤ 0 ∨ fsOut ≤ 0) :
    ∃ e, processEvent M wm fsIn fsOut ev = Except.error e := by
  unfold processEvent safe_resample
  cases hdc : dc_block ev.waveform with
  | error e =>
    exact ⟨e, by simp only [exBind_error]⟩
  | ok x1 =>
    by_cases hdiv : ((fsIn : ℚ) / 2) = 0
    · refine ⟨zeroDivMsg, ?_⟩
      simp only [exBind_ok]
      unfold pydiv
      rw [if_pos hdiv]
      simp only [exBind_error]
    · set Wn := ((9 / 10 : ℚ) * ((min fsIn fsOut : ℤ) : ℚ) / 2) / ((fsIn : ℚ) / 2) with hWdef
      by_cases hb : 0 < Wn ∧ Wn < 1
      · cases hff : filtfilt ((List.range 5).map (M.butterLowB Wn))
            ((List.range 5).map (M.butterLowA Wn)) x1 with
        | error e =>
          refine ⟨e, ?_⟩
          simp only [exBind_ok]
          unfold pydiv
          rw [if_neg hdiv]
          simp only [exBind_ok]
          unfold butter
          rw [if_pos hb]
          simp only [exBind_ok]
          rw [hff]
          simp only [exBind_error]
        | ok x2 =>
          refine ⟨updownMsg, ?_⟩
          simp only [exBind_ok]
          unfold pydiv
          rw [if_neg hdiv]
          simp only [exBind_ok]
          unfold butter
          rw [if_pos hb]
          simp only [exBind_ok]
          rw [hff]
          simp only [exBind_ok]
          unfold resample_poly
          rw [if_pos (show fsOut < 1 ∨ fsIn < 1 by omega)]
          simp only [exBind_error]
      · refine ⟨butterMsg, ?_⟩
        simp only [exBind_ok]
        unfold pydiv
        rw [if_neg hdiv]
        simp only [exBind_ok]
        unfold butter
        rw [if_neg hb]
        simp only [exBind_error]

theorem processBatch_of_bad_rates (M : NumericModel) (wm : Bool)
    (fsIn fsOut : ℤ) (h : fsIn ≤ 0 ∨ fsOut ≤ 0) :
    ∀ evs : List EventStruct, processBatch M wm fsIn fsOut evs = ⟨[], 1⟩ := by
  intro evs
  unfold processBatch
  induction evs with
  | nil => rfl
  | cons ev evs ih =>
    rw [List.foldl_cons]
    obtain ⟨e, he⟩ := processEvent_error_of_bad_rates M wm fsIn fsOut ev h
    rw [step_error M wm fsIn fsOut _ ev e he]
    exact ih

/-- Metadata value used for closed evaluations. -/
def meta0 : String := "m"

theorem len_replicate_q (n : ℕ) : (List.replicate n (0 : ℚ)).length = n := by
  rw [List.length_replicate]

/-- A one sample event: too short for any zero phase filter. -/
def ev1 : EventStruct := ⟨[0], meta0⟩

/-- A twenty sample event: long enough for the DC block, still an
erroring event under a degenerate configuration. -/
def ev20 : EventStruct := ⟨List.replicate 20 0, meta0⟩

/-- A nonempty batch state used for closed evaluations. -/
def stEx : BatchState := ⟨[(eventKey 1, EventPSD.mk none [])], 2⟩

/-- Empty string. -/
def emptyStr : String := ""

/-- Fallback entry for indexing into a window list. -/
def dummyWin : String × (List ℚ × List ℚ) := (emptyStr, ([], []))

/-- Claim C1: for a resampled waveform of length L at the fixed target
rate (window length 1000 samples, stride 500), the windower computes the
number of segments as floor((L - 1000) / 500) + 1 when L is at least
1000, and rejects the event with the insufficient samples diagnostic
(before any conditioning or spectral estimation, hence an ok skip rather
than an error even when conditioning would raise) when L < 1000. -/
theorem windower_segment_count (M : NumericModel) (wm : Bool) (m : String) (wf : List ℚ) :
    if wf.length < 1000 then
      windowAndEstimate M wm 100 m wf = Except.ok (EventOutcome.notEnoughSamples wf.length)
    else
      ∃ o, windowAndEstimate M wm 100 m wf = Except.ok o ∧
        outcomeNumWindows o = (((wf.length - 1000) / 500 + 1 : ℕ) : ℤ) := by
  by_cases hL : wf.length < 1000
  · rw [if_pos hL]
    exact windowAndEstimate_short M wm m wf hL
  · rw [if_neg hL]
    obtain ⟨wf2, hpre, hlen, hwe⟩ := windowAndEstimate_spec M wm m wf (by omega)
    by_cases hg : (wf.length - 1000) / 500 + 1 < 11
    · refine ⟨EventOutcome.tooFewWindows (((wf.length - 1000) / 500 + 1 : ℕ) : ℤ), ?_, rfl⟩
      rw [hwe, if_pos hg]
    · refine ⟨EventOutcome.accepted
          ⟨if wm then some m else none,
           (List.range ((wf.length - 1000) / 500 + 1)).map
             (fun w => (winKey (w + 1),
               welchOkVal M ((wf2.drop (w * 500)).take 1000) 100))⟩, ?_, ?_⟩
      · rw [hwe, if_neg hg]
      · simp [outcomeNumWindows]

/-- Claim C2: an event whose computed window count is below 11 is
rejected in its entirety (no PSD computed, nothing added), and an event
with at least 11 windows is accepted; in particular the boundary values
10 and 11 fall on the two sides of the gate. -/
theorem event_gate_eleven_windows (M : NumericModel) (wm : Bool) (m : String)
    (wf : List ℚ) (h : 1000 ≤ wf.length) :
    ((wf.length - 1000) / 500 + 1 < 11 →
      windowAndEstimate M wm 100 m wf =
        Except.ok (EventOutcome.tooFewWindows (((wf.length - 1000) / 500 + 1 : ℕ) : ℤ))) ∧
    (11 ≤ (wf.length - 1000) / 500 + 1 →
      ∃ psd, windowAndEstimate M wm 100 m wf = Except.ok (EventOutcome.accepted psd)) := by
  obtain ⟨wf2, hpre, hlen, hwe⟩ := windowAndEstimate_spec M wm m wf h
  constructor
  · intro hg
    rw [hwe, if_pos hg]
  · intro hg
    exact ⟨⟨if wm then some m else none,
      (List.range ((wf.length - 1000) / 500 + 1)).map
        (fun w => (winKey (w + 1),
          welchOkVal M ((wf2.drop (w * 500)).take 1000) 100))⟩,
      by rw [hwe, if_neg (by omega)]⟩

theorem event_gate_eleven_windows_witness :
    1000 ≤ (List.replicate 6000 (0 : ℚ)).length ∧
      ((((List.replicate 6000 (0 : ℚ)).length - 1000) / 500 + 1 < 11 →
        windowAndEstimate M0 true 100 meta0 (List.replicate 6000 (0 : ℚ)) =
          Except.ok (EventOutcome.tooFewWindows
            ((((List.replicate 6000 (0 : ℚ)).length - 1000) / 500 + 1 : ℕ) : ℤ))) ∧
       (11 ≤ ((List.replicate 6000 (0 : ℚ)).length - 1000) / 500 + 1 →
        ∃ psd, windowAndEstimate M0 true 100 meta0 (List.replicate 6000 (0 : ℚ)) =
          Except.ok (EventOutcome.accepted psd))) :=
  ⟨by rw [len_replicate_q]; omega,
    event_gate_eleven_windows M0 true meta0 (List.replicate 6000 (0 : ℚ))
      (by rw [len_replicate_q]; omega)⟩

/-- Claim C3: the keys of the result collection are exactly
event_001 .. event_N for N the number of accepted events, assigned in
input iteration order, 1-based and gap free: the entries are the accepted
feature sets in order, and the counter advanced exactly once per
acceptance. -/
theorem output_keys_sequential (M : NumericModel) (wm : Bool) (fsIn fsOut : ℤ)
    (evs : List EventStruct) :
    (processBatch M wm fsIn fsOut evs).psdResults.map Prod.fst =
      (List.range
        (evs.filterMap (fun ev => acceptedOf (processEvent M wm fsIn fsOut ev))).length).map
        (fun i => eventKey (i + 1)) ∧
    (processBatch M wm fsIn fsOut evs).psdResults.map Prod.snd =
      evs.filterMap (fun ev => acceptedOf (processEvent M wm fsIn fsOut ev)) ∧
    (processBatch M wm fsIn fsOut evs).goodEventCounter =
      (evs.filterMap (fun ev => acceptedOf (processEvent M wm fsIn fsOut ev))).length + 1 := by
  unfold processBatch
  rw [foldl_spec M wm fsIn fsOut evs [] 1]
  dsimp only
  refine ⟨?_, ?_, ?_⟩
  · simp only [List.nil_append]
    rw [List.map_fst_zip _ _ (by simp)]
    apply List.map_congr_left
    intro a _
    congr 1
    omega
  · simp only [List.nil_append]
    rw [List.map_snd_zip _ _ (by simp)]
  · omega

/-- Claim C4 counterexample: the claim quantifies over every waveform,
but on a one sample waveform the resampler raises the scipy filtfilt
pad length ValueError instead of returning ceil(1 * 100 / 20) = 5
samples. -/
theorem resample_length_counterexample :
    isOkLen (safe_resample M0 [(0 : ℚ)] 20 100) 5 = false := rfl

/-- Claim C4 amended: for every waveform longer than 15 samples (the
default filtfilt pad length for the 4th order anti alias filter) and
integer rates at least 1, the resampler output length is
ceil(len * fs_out / fs_in); with fs_in = 20 and fs_out = 100 this is
5 * len.  Shorter waveforms make filtfilt raise ValueError. -/
theorem resample_length_amended (M : NumericModel) (w : List ℚ) (fsIn fsOut : ℤ)
    (hw : 15 < w.length) (h1 : 1 ≤ fsIn) (h2 : 1 ≤ fsOut) :
    ∃ y, safe_resample M w fsIn fsOut = Except.ok y ∧
      y.length = (w.length * fsOut.toNat + fsIn.toNat - 1) / fsIn.toNat ∧
      (fsIn = 20 → fsOut = 100 → y.length = 5 * w.length) := by
  obtain ⟨y, hy, hlen⟩ := safe_resample_len M w fsIn fsOut hw h1 h2
  refine ⟨y, hy, hlen, ?_⟩
  intro h20 h100
  subst h20
  subst h100
  rw [hlen]
  rw [show ((100 : ℤ).toNat) = 100 from rfl, show ((20 : ℤ).toNat) = 20 from rfl]
  have hs : w.length * 100 + 20 - 1 = 20 * (5 * w.length) + 19 := by
    have : w.length * 100 = 20 * (5 * w.length) := by ring
    omega
  rw [hs, Nat.mul_add_div (by norm_num), Nat.div_eq_of_lt (by norm_num)]
  omega

theorem resample_length_amended_witness :
    15 < (List.replicate 16 (0 : ℚ)).length ∧ (1 : ℤ) ≤ 20 ∧ (1 : ℤ) ≤ 100 ∧
      ∃ y, safe_resample M0 (List.replicate 16 (0 : ℚ)) 20 100 = Except.ok y ∧
        y.length = ((List.replicate 16 (0 : ℚ)).length * (100 : ℤ).toNat
          + (20 : ℤ).toNat - 1) / (20 : ℤ).toNat ∧
        ((20 : ℤ) = 20 → (100 : ℤ) = 100 →
          y.length = 5 * (List.replicate 16 (0 : ℚ)).length) :=
  ⟨by rw [len_replicate_q]; omega, by norm_num, by norm_num,
    resample_length_amended M0 (List.replicate 16 (0 : ℚ)) 20 100
      (by rw [len_replicate_q]; omega) (by norm_num) (by norm_num)⟩

/-- Claim C5 counterexample: the claim quantifies over every non empty
waveform, but on a one sample waveform the conditioner raises the scipy
filtfilt pad length ValueError instead of returning a length 1 output. -/
theorem condition_length_counterexample :
    isOkLen (preprocess M0 [(0 : ℚ)] 100) 1 = false := rfl

/-- Claim C5 amended: for every waveform longer than 15 samples (the
default filtfilt pad length for the 4th order high pass) and sample rate
above 0.2 Hz (so the fixed 0.1 Hz cutoff stays below Nyquist), the
conditioner returns a waveform of the same length, with no trimming;
shorter inputs make filtfilt raise ValueError. -/
theorem condition_length_amended (M : NumericModel) (w : List ℚ) (fs : ℚ)
    (hw : 15 < w.length) (hfs : 1 / 5 < fs) :
    ∃ y, preprocess M w fs = Except.ok y ∧ y.length = w.length :=
  preprocess_len M w fs hw hfs

theorem condition_length_amended_witness :
    15 < (List.replicate 16 (0 : ℚ)).length ∧ (1 / 5 : ℚ) < 100 ∧
      ∃ y, preprocess M0 (List.replicate 16 (0 : ℚ)) 100 = Except.ok y ∧
        y.length = (List.replicate 16 (0 : ℚ)).length :=
  ⟨by rw [len_replicate_q]; omega, by norm_num,
    condition_length_amended M0 (List.replicate 16 (0 : ℚ)) 100
      (by rw [len_replicate_q]; omega) (by norm_num)⟩

/-- Claim C6: on every segment (the pipeline feeds length 1000 segments
at 100 Hz), the spectral estimator returns a power array and a frequency
array of equal length, cut by the identical mask, and every returned
frequency is at most 10 Hz. -/
theorem welch_alignment (M : NumericModel) (x : List ℚ) (h : x.length = 1000) :
    ∃ p f, welch_psd M x 100 = Except.ok (p, f) ∧ p.length = f.length ∧
      ∀ q ∈ f, q ≤ 10 := by
  obtain ⟨hl, hm⟩ := welchOkVal_spec M x 100
  exact ⟨(welchOkVal M x 100).1, (welchOkVal M x 100).2,
    by rw [welch_psd_ok M x (by omega)], hl, hm⟩

theorem welch_alignment_witness :
    (List.replicate 1000 (0 : ℚ)).length = 1000 ∧
      ∃ p f, welch_psd M0 (List.replicate 1000 (0 : ℚ)) 100 = Except.ok (p, f) ∧
        p.length = f.length ∧ ∀ q ∈ f, q ≤ 10 :=
  ⟨by rw [len_replicate_q], welch_alignment M0 (List.replicate 1000 (0 : ℚ))
    (by rw [len_replicate_q])⟩

/-- Claim C7 counterexample: with fs_in = 0 the anti alias cutoff
normalization divides by zero, which raises inside the per event try
block; the error is caught by the per event handler and the batch
completes normally with an empty result collection — there is no
construction time validation, contradicting the claim that the invalid
configuration is detected fast at pipeline construction before the batch
starts rather than caught and handled per event. -/
theorem config_error_counterexample :
    processEvent M0 true 0 100 ev20 = Except.error zeroDivMsg ∧
      processBatch M0 true 0 100 [ev20] = ⟨[], 1⟩ := by
  have h1 : processEvent M0 true 0 100 ev20 = Except.error zeroDivMsg := by
    unfold processEvent safe_resample
    have hdc : dc_block ev20.waveform
        = Except.ok (filtfiltVal [1, -1] [1, -dcPole] ev20.waveform) := by
      apply dc_block_ok
      simp [ev20]
    rw [hdc]
    simp only [exBind_ok]
    unfold pydiv
    rw [if_pos (by norm_num)]
    simp only [exBind_error]
  refine ⟨h1, ?_⟩
  unfold processBatch
  rw [List.foldl_cons, step_error M0 true 0 100 _ ev20 zeroDivMsg h1]
  rfl

/-- Claim C7 amended: if fs_in ≤ 0 or fs_out ≤ 0, every event raises an
error inside the filter design or the resampler (never a silent filter at
zero cutoff), but the error is raised and caught per event by the catch
all handler; there is no construction time validation, and the batch
completes with an empty result collection and an untouched counter. -/
theorem config_error_amended (M : NumericModel) (wm : Bool) (fsIn fsOut : ℤ)
    (evs : List EventStruct) (h : fsIn ≤ 0 ∨ fsOut ≤ 0) :
    processBatch M wm fsIn fsOut evs = ⟨[], 1⟩ :=
  processBatch_of_bad_rates M wm fsIn fsOut h evs

theorem config_error_amended_witness :
    ((20 : ℤ) ≤ 0 ∨ (0 : ℤ) ≤ 0) ∧
      processBatch M0 true 20 0 [ev1, ev20] = ⟨[], 1⟩ :=
  ⟨Or.inr le_rfl, config_error_amended M0 true 20 0 [ev1, ev20] (Or.inr le_rfl)⟩

/-- Claim C8: an accepted event emits exactly the segments starting at
w * stride for w = 0 .. num_windows - 1, each of length exactly 1000
(tail samples beyond the last full window are never emitted or padded),
keyed window_001 onward in ordinal order, in one to one correspondence
with the produced PSD windows of exactly those slices. -/
theorem segments_exact_slices (M : NumericModel) (wm : Bool) (m : String) (wf : List ℚ)
    (h1 : 1000 ≤ wf.length) (h2 : 11 ≤ (wf.length - 1000) / 500 + 1) :
    ∃ wf2 psd, preprocess M wf 100 = Except.ok wf2 ∧
      windowAndEstimate M wm 100 m wf = Except.ok (EventOutcome.accepted psd) ∧
      psd.windows.length = (wf.length - 1000) / 500 + 1 ∧
      ∀ w, w < (wf.length - 1000) / 500 + 1 →
        ((wf2.drop (w * 500)).take 1000).length = 1000 ∧
        psd.windows.getD w dummyWin
          = (winKey (w + 1), welchOkVal M ((wf2.drop (w * 500)).take 1000) 100) := by
  obtain ⟨wf2, hpre, hlen, hwe⟩ := windowAndEstimate_spec M wm m wf h1
  rw [if_neg (by omega)] at hwe
  refine ⟨wf2, _, hpre, hwe, ?_, ?_⟩
  · simp
  · intro w hw
    exact ⟨seg_length wf2 wf.length w hlen h1 hw, getD_map_range _ _ _ _ hw⟩

theorem segments_exact_slices_witness :
    1000 ≤ (List.replicate 6000 (0 : ℚ)).length ∧
      11 ≤ ((List.replicate 6000 (0 : ℚ)).length - 1000) / 500 + 1 ∧
      ∃ wf2 psd, preprocess M0 (List.replicate 6000 (0 : ℚ)) 100 = Except.ok wf2 ∧
        windowAndEstimate M0 true 100 meta0 (List.replicate 6000 (0 : ℚ))
          = Except.ok (EventOutcome.accepted psd) ∧
        psd.windows.length = ((List.replicate 6000 (0 : ℚ)).length - 1000) / 500 + 1 ∧
        ∀ w, w < ((List.replicate 6000 (0 : ℚ)).length - 1000) / 500 + 1 →
          ((wf2.drop (w * 500)).take 1000).length = 1000 ∧
          psd.windows.getD w dummyWin
            = (winKey (w + 1), welchOkVal M0 ((wf2.drop (w * 500)).take 1000) 100) :=
  ⟨by rw [len_replicate_q]; omega, by rw [len_replicate_q],
    segments_exact_slices M0 true meta0 (List.replicate 6000 (0 : ℚ))
      (by rw [len_replicate_q]; omega) (by rw [len_replicate_q])⟩

/-- Claim C9: the pipeline is deterministic — the batch result is a pure
function of the input events (and the numeric oracle standing for the
deterministic scipy kernels); two runs on equal inputs with identical
configuration give equal result collections, with no hidden randomness or
state between calls. -/
theorem pipeline_deterministic (M : NumericModel) (wm : Bool) (fsIn fsOut : ℤ)
    (d1 d2 : List EventStruct) (h : d1 = d2) :
    processBatch M wm fsIn fsOut d1 = processBatch M wm fsIn fsOut d2 := by
  rw [h]

theorem pipeline_deterministic_witness :
    ([ev1, ev20] : List EventStruct) = [ev1, ev20] ∧
      processBatch M0 true 20 100 [ev1, ev20] = processBatch M0 true 20 100 [ev1, ev20] :=
  ⟨rfl, pipeline_deterministic M0 true 20 100 [ev1, ev20] [ev1, ev20] rfl⟩

/-- Claim C10: per event processing is atomic with respect to the output
state — if an exception is raised at any point while processing an event,
the result collection and the output key counter are exactly as before
that event began (an entry is appended and the counter incremented only
on a fully accepted event). -/
theorem event_atomicity (M : NumericModel) (wm : Bool) (fsIn fsOut : ℤ)
    (st : BatchState) (ev : EventStruct) (e : String)
    (h : processEvent M wm fsIn fsOut ev = Except.error e) :
    processEventIntoState M wm fsIn fsOut st ev = st :=
  step_error M wm fsIn fsOut st ev e h

theorem event_atomicity_witness :
    processEvent M0 true 20 100 ev1 = Except.error padlenMsg ∧
      processEventIntoState M0 true 20 100 stEx ev1 = stEx :=
  ⟨rfl, event_atomicity M0 true 20 100 stEx ev1 padlenMsg rfl⟩

end EqML
